import Mathlib

/-!
Verification of the integer-frequency MapReduce pipeline
(`mapreduce_count.py`, `mapreduce_counter.py`, `map_reduce_pipeline.py`,
`count_integers.py`).

Python dictionaries are embedded as insertion-ordered association lists,
Python lists as Lean lists, and each phase of the pipeline as a pure
function from its inputs (parsed file contents, task index, task count)
to the artifact it writes.
-/

namespace BigData

/-- Numeric value of a list of decimal digit characters, most significant first. -/
def natOfDigits (cs : List Char) : Nat :=
  cs.foldl (fun n c => 10 * n + (c.toNat - 48)) 0

/-- Models Python `int()` applied to a whitespace-free token: an optional
sign character followed by at least one decimal digit; anything else raises
`ValueError`, modelled as `none`. -/
def parseIntTok (s : String) : Option Int :=
  match s.data with
  | [] => none
  | '+' :: rest =>
      if !rest.isEmpty && rest.all Char.isDigit then some (natOfDigits rest) else none
  | '-' :: rest =>
      if !rest.isEmpty && rest.all Char.isDigit then some (-(natOfDigits rest : Int)) else none
  | cs => if cs.all Char.isDigit then some (natOfDigits cs) else none

/-- Models Python `str.strip()`: remove leading and trailing whitespace. -/
def pyStrip (s : String) : String :=
  String.mk (((s.data.dropWhile Char.isWhitespace).reverse.dropWhile Char.isWhitespace).reverse)

/-- Models Python `str.isdigit()` on ASCII content: nonempty and every
character a decimal digit. -/
def pyIsdigit (s : String) : Bool :=
  !s.data.isEmpty && s.data.all Char.isDigit

/-- `defaultdict(int)` accumulation `d[k] += c`: the key keeps its original
insertion position, a new key is appended at the end. -/
def bumpBy (t : List (Int × Nat)) (k : Int) (c : Nat) : List (Int × Nat) :=
  match t with
  | [] => [(k, c)]
  | p :: rest => if p.1 = k then (p.1, p.2 + c) :: rest else p :: bumpBy rest k c

/-- `defaultdict(int)` increment `d[k] += 1`. -/
def bump (t : List (Int × Nat)) (k : Int) : List (Int × Nat) :=
  bumpBy t k 1

/-- Plain `dict` assignment `d[k] = c`: overwrites the value of an existing
key in place, appends a new key at the end. -/
def setKey (t : List (Int × Nat)) (k : Int) (c : Nat) : List (Int × Nat) :=
  match t with
  | [] => [(k, c)]
  | p :: rest => if p.1 = k then (p.1, c) :: rest else p :: setKey rest k c

/-- `dict` lookup `d.get(k)`. -/
def lookupTable (t : List (Int × Nat)) (k : Int) : Option Nat :=
  match t with
  | [] => none
  | p :: rest => if p.1 = k then some p.2 else lookupTable rest k

/-- Sum of all counts held in a table. -/
def totalCount (t : List (Int × Nat)) : Nat :=
  (t.map Prod.snd).sum

/-! ## `mapreduce_count.py` (and the identical logic in `mapreduce_counter.py`) -/

/-- `run_mapper`'s file assignment: `files_per_mapper = len(all_files) // NUM_MAPPERS`,
`start_index = mapper_id * files_per_mapper`, `end_index = start_index + files_per_mapper`,
with the last mapper's `end_index` widened to `len(all_files)`, then the Python
slice `all_files[start_index:end_index]`. -/
def assign {α : Type} (files : List α) (i M : Nat) : List α :=
  let fpm := files.length / M
  let start := i * fpm
  let stop := if i = M - 1 then files.length else start + fpm
  (files.take stop).drop start

/-- One iteration of `run_mapper`'s line loop: `num = int(line.strip());
local_counts[num] += 1`, with `ValueError` caught and the line skipped. -/
def mapLineStep (t : List (Int × Nat)) (line : String) : List (Int × Nat) :=
  match parseIntTok (pyStrip line) with
  | some v => bump t v
  | none => t

/-- `run_mapper`'s counting loop over its assigned files (each file a list of
lines), starting from the empty `defaultdict`. -/
def mapperCountsMC (files : List (List String)) : List (Int × Nat) :=
  files.foldl (fun t file => file.foldl mapLineStep t) []

/-- The intermediate artifact written by mapper task `i` of `M`: the
`(number, count)` pairs of its local table, for the block of the corpus
assigned to it. -/
def mapperArtifactMC (corpus : List (List String)) (M i : Nat) : List (Int × Nat) :=
  mapperCountsMC (assign corpus i M)

/-- The concatenation of all mapper artifacts (what the reducers read back,
one `number count` line per pair). -/
def allMapperPairsMC (corpus : List (List String)) (M : Nat) : List (Int × Nat) :=
  (List.range M).flatMap (fun m => mapperArtifactMC corpus M m)

/-- `run_reducer`'s accumulation loop: for every `(number, count)` pair read
from the mapper artifacts, keep it iff `number % NUM_REDUCERS == reducer_id`
(Python `%`, i.e. mathematical modulo `Int.emod`), accumulating with
`final_counts[number] += count`. -/
def reducerCountsMC (pairs : List (Int × Nat)) (r R : Nat) : List (Int × Nat) :=
  pairs.foldl (fun t p => if p.1 % (R : Int) = (r : Int) then bumpBy t p.1 p.2 else t) []

/-- The artifact written by reducer task `r` of `R`. -/
def reducerArtifactMC (corpus : List (List String)) (M r R : Nat) : List (Int × Nat) :=
  reducerCountsMC (allMapperPairsMC corpus M) r R

/-- Number of lines of a file whose stripped text parses as an integer
(the lines `run_mapper` actually counts). -/
def validCountLines (file : List String) : Nat :=
  (file.filter (fun l => (parseIntTok (pyStrip l)).isSome)).length

/-- Start index of the file block owned by mapper task `i` of `M`
(`start_index = mapper_id * files_per_mapper`). -/
def blockStart (len i M : Nat) : Nat :=
  i * (len / M)

/-- One-past-the-end index of the file block owned by mapper task `i` of `M`
(`end_index`, widened to `len` for the last task). -/
def blockStop (len i M : Nat) : Nat :=
  if i = M - 1 then len else blockStart len i M + len / M

/-- The key partitioner exactly as the spec writes it:
`((key mod R) + R) mod R`, reading the inner and outer `mod` as the
truncating remainder the formula is designed to repair. -/
def owner (k : Int) (R : Nat) : Int :=
  ((k.tmod (R : Int)) + (R : Int)).tmod (R : Int)

/-- `run_report`'s merge of reducer artifacts: `total_counts[number] = count`
for every `(number, count)` line of every reducer file, i.e. plain dict
assignment, later artifacts overwriting earlier ones on a shared key. -/
def mergeReportMC (arts : List (List (Int × Nat))) : List (Int × Nat) :=
  arts.foldl (fun t art => art.foldl (fun t2 p => setKey t2 p.1 p.2) t) []

/-- `run_report`'s ranking: `sorted(total_counts.items(), key=lambda item:
item[1], reverse=True)` — a stable sort by count descending, with no key
tie-break (ties keep dict insertion order). Any stable sort computes the
same list as Python's, so insertion sort is used. -/
def rankMC (l : List (Int × Nat)) : List (Int × Nat) :=
  List.insertionSort (fun a b => b.2 ≤ a.2) l

/-- `run_report`'s printed top list: the first `min(6, len)` ranked pairs. -/
def topKMC (arts : List (List (Int × Nat))) (K : Nat) : List (Int × Nat) :=
  (rankMC (mergeReportMC arts)).take K

/-- `run_report`'s missing-artifact check: with zero reducer artifacts it
prints an error and `return`s — the process still finishes normally, so the
phase yields no report but exit code 0. -/
def runReportMC (arts : List (List (Int × Nat))) : Option (List (Int × Nat)) :=
  if arts.isEmpty then none else some (topKMC arts 6)

/-! ## `map_reduce_pipeline.py` -/

/-- The pipeline mapper's round-robin file assignment:
`if i % num_tasks != task_index: continue`. -/
def assignRoundRobin {α : Type} (files : List α) (i M : Nat) : List α :=
  ((files.enum.filter (fun p => p.1 % M = i)).map Prod.snd)

/-- One token step of the pipeline mapper: `v = int(t)` — with no
try/except, so a malformed token raises (modelled as `Except.error` carrying
the token) — then `if 0 <= v <= 100: counts[v] += 1`. -/
def pipeStep (counts : List Nat) (t : String) : Except String (List Nat) :=
  match parseIntTok t with
  | none => .error t
  | some v =>
      .ok (if 0 ≤ v ∧ v ≤ 100 then counts.set v.toNat (counts.getD v.toNat 0 + 1) else counts)

/-- The pipeline mapper: a dense table `counts = [0]*101`, fed every
whitespace token of every assigned file. -/
def pipeMapper (corpus : List (List String)) (i M : Nat) :
    Except String (List Nat) :=
  (assignRoundRobin corpus i M).foldlM
    (fun counts file => file.foldlM pipeStep counts)
    (List.replicate 101 0)

/-- Element-wise accumulation of one artifact array into a running table,
adding `arr[i]` at the positions selected by `keep` (the reducer keeps
`i % num_tasks == task_index`; the reporter keeps everything). -/
def addArr (tbl : List Nat) (arr : List Nat) (keep : Nat → Bool) : List Nat :=
  arr.enum.foldl
    (fun p ic => if keep ic.1 then p.set ic.1 (p.getD ic.1 0 + ic.2) else p)
    tbl

/-- The pipeline reducer: `partial = [0]*101`, then for every mapper array
and every index `i` with `i % num_tasks == task_index`, `partial[i] += c`. -/
def pipeReducer (parts : List (List Nat)) (r R : Nat) : List Nat :=
  parts.foldl (fun tbl arr => addArr tbl arr (fun i => i % R == r)) (List.replicate 101 0)

/-- The pipeline reporter's merge: `final = [0]*101` with `final[i] += c`
over every reducer array — an element-wise sum. -/
def pipeReportTable (parts : List (List Nat)) : List Nat :=
  parts.foldl (fun tbl arr => addArr tbl arr (fun _ => true)) (List.replicate 101 0)

/-- The reporter's pair list `[(i, final[i]) for i in range(101)]`. -/
def pipePairs (final : List Nat) : List (Nat × Nat) :=
  (List.range 101).map (fun i => (i, final.getD i 0))

/-- The pipeline ranking order, Python's ascending order on the sort key
`(-count, key)`: count descending, ties broken by key ascending. -/
def pipeRankRel (a b : Nat × Nat) : Prop :=
  b.2 < a.2 ∨ (a.2 = b.2 ∧ a.1 ≤ b.1)

instance : DecidableRel pipeRankRel := by
  intro a b
  unfold pipeRankRel
  infer_instance

/-- The pipeline reporter's sort `pairs.sort(key=lambda x: (-x[1], x[0]))`
(stable, hence equal to any stable sort under the same order). -/
def pipeRank (pairs : List (Nat × Nat)) : List (Nat × Nat) :=
  List.insertionSort pipeRankRel pairs

/-- The pipeline report body: the first `top_k` ranked `(integer, frequency)`
rows (`top_k = 6` by default). -/
def pipeTop (parts : List (List Nat)) (K : Nat) : List (Nat × Nat) :=
  (pipeRank (pipePairs (pipeReportTable parts))).take K

/-! ## `count_integers.py` -/

/-- The values `mapper_task` counts:
`Counter(int(tok) for tok in tokens if tok.isdigit())` — only tokens that
are pure digit strings, whose `int()` value is the digits' value. -/
def mapperValuesCI (tokens : List String) : List Int :=
  (tokens.filter pyIsdigit).map (fun t => (natOfDigits t.data : Int))

/-- The per-file Counter of `mapper_task`, as a count function. -/
def mapperCounterCI (tokens : List String) (k : Int) : Nat :=
  (mapperValuesCI tokens).count k

/-- `reducer_task`'s aggregation `total_counts.update(...)`: Counter update
sums counts key-wise across all mapper artifacts. -/
def totalCountsCI (files : List (List String)) (k : Int) : Nat :=
  (files.map (fun f => mapperCounterCI f k)).sum

/-- `reducer_task`'s merged table in artifact order, built with Counter
addition (`bumpBy`). -/
def mergeSumCI (arts : List (List (Int × Nat))) : List (Int × Nat) :=
  arts.foldl (fun t art => art.foldl (fun t2 p => bumpBy t2 p.1 p.2) t) []

/-- `Counter.most_common(6)`: the six largest counts, equivalent to a stable
descending sort by count followed by `take 6`. -/
def top6CI (t : List (Int × Nat)) : List (Int × Nat) :=
  (rankMC t).take 6

/-- `reducer_task`'s control flow: with zero intermediate mapper artifacts it
prints an error and calls `sys.exit(1)`; otherwise it merges them and writes
the top-6 result. The `Except` error value is the process exit code. -/
def reducerTaskCI (arts : List (List (Int × Nat))) :
    Except Nat (List (Int × Nat)) :=
  if arts.isEmpty then .error 1 else .ok (top6CI (mergeSumCI arts))

/-- `count_integers.py`'s entry point: any argv other than exactly
`[mapper]` or `[reducer]` is a usage error exiting with code 1. -/
def mainCI (args : List String) (arts : List (List (Int × Nat))) :
    Except Nat (Option (List (Int × Nat))) :=
  if args = ["mapper"] then .ok none
  else if args = ["reducer"] then
    match reducerTaskCI arts with
    | .error c => .error c
    | .ok t => .ok (some t)
  else .error 1

/-! ## Filesystem state for re-run semantics (`mapreduce_count.py`) -/

/-- The shared store the tasks communicate through: one optional artifact
per mapper index (`intermediate/map_<i>.txt`), one per reducer index
(`output/reduce_<r>.txt`). The two name patterns never collide. -/
@[ext]
structure FS where
  mapArts : Nat → Option (List (Int × Nat))
  redArts : Nat → Option (List (Int × Nat))

/-- Writing mapper artifact `i` (open with mode `w`: wholesale overwrite). -/
def writeMapArt (fs : FS) (i : Nat) (a : List (Int × Nat)) : FS :=
  { fs with mapArts := fun j => if j = i then some a else fs.mapArts j }

/-- Writing reducer artifact `r` (mode `w`: wholesale overwrite). -/
def writeRedArt (fs : FS) (r : Nat) (a : List (Int × Nat)) : FS :=
  { fs with redArts := fun j => if j = r then some a else fs.redArts j }

/-- The pairs a reducer reads back from the mapper artifacts present in the
store (the glob over `map_*.txt` of a completed `M`-mapper run). -/
def readMapPairs (fs : FS) (M : Nat) : List (Int × Nat) :=
  ((List.range M).filterMap fs.mapArts).flatten

/-- One mapper task run against the store: recompute the artifact from the
(unchanged) input corpus and overwrite `map_<i>.txt`. -/
def runMapperFS (corpus : List (List String)) (M i : Nat) (fs : FS) : FS :=
  writeMapArt fs i (mapperArtifactMC corpus M i)

/-- One reducer task run against the store: read every mapper artifact
present, keep owned keys, overwrite `reduce_<r>.txt`. -/
def runReducerFS (M R r : Nat) (fs : FS) : FS :=
  writeRedArt fs r (reducerCountsMC (readMapPairs fs M) r R)

/-! ### Table totals -/

theorem totalCount_bumpBy (t : List (Int × Nat)) (k : Int) (c : Nat) :
    totalCount (bumpBy t k c) = totalCount t + c := by
  induction t with
  | nil => simp [bumpBy, totalCount]
  | cons p rest ih =>
      by_cases h : p.1 = k
      · simp [bumpBy, h, totalCount]
        omega
      · simp [bumpBy, h, totalCount] at ih ⊢
        omega

theorem totalCount_bump (t : List (Int × Nat)) (k : Int) :
    totalCount (bump t k) = totalCount t + 1 :=
  totalCount_bumpBy t k 1

theorem totalCount_foldl_lines (file : List String) :
    ∀ t : List (Int × Nat),
      totalCount (file.foldl mapLineStep t) = totalCount t + validCountLines file := by
  induction file with
  | nil => intro t; simp [validCountLines]
  | cons l rest ih =>
      intro t
      rw [List.foldl_cons, ih]
      unfold mapLineStep validCountLines
      cases h : parseIntTok (pyStrip l) with
      | none => simp [h, validCountLines]
      | some v => simp [h, totalCount_bump, validCountLines]; omega

theorem totalCount_mapperCountsMC_aux (files : List (List String)) :
    ∀ t : List (Int × Nat),
      totalCount (files.foldl (fun t file => file.foldl mapLineStep t) t)
        = totalCount t + (files.map validCountLines).sum := by
  induction files with
  | nil => intro t; simp
  | cons f rest ih =>
      intro t
      rw [List.foldl_cons, ih, totalCount_foldl_lines]
      simp
      omega

/-- The total of a mapper artifact is exactly the number of lines of its
assigned files that parse as integers. -/
theorem totalCount_mapperCountsMC (files : List (List String)) :
    totalCount (mapperCountsMC files) = (files.map validCountLines).sum := by
  have h := totalCount_mapperCountsMC_aux files []
  simpa [mapperCountsMC, totalCount] using h

theorem totalCount_append (s t : List (Int × Nat)) :
    totalCount (s ++ t) = totalCount s + totalCount t := by
  simp [totalCount]

theorem totalCount_flatMap {β : Type} (l : List β) (f : β → List (Int × Nat)) :
    totalCount (l.flatMap f) = (l.map (fun b => totalCount (f b))).sum := by
  induction l with
  | nil => simp [totalCount]
  | cons b rest ih => simp [List.flatMap_cons, totalCount_append, ih]

/-- Counts kept by reducer `r` out of a stream of pairs. -/
def keptSum (pairs : List (Int × Nat)) (r R : Nat) : Nat :=
  ((pairs.filter (fun p => decide (p.1 % (R : Int) = (r : Int)))).map Prod.snd).sum

theorem totalCount_reducerCountsMC_aux (pairs : List (Int × Nat)) (r R : Nat) :
    ∀ t : List (Int × Nat),
      totalCount (pairs.foldl
          (fun t p => if p.1 % (R : Int) = (r : Int) then bumpBy t p.1 p.2 else t) t)
        = totalCount t + keptSum pairs r R := by
  induction pairs with
  | nil => intro t; simp [keptSum]
  | cons p rest ih =>
      intro t
      rw [List.foldl_cons]
      by_cases h : p.1 % (R : Int) = (r : Int)
      · rw [if_pos h, ih, totalCount_bumpBy]
        simp [keptSum, h]
        omega
      · rw [if_neg h, ih]
        simp [keptSum, h]

/-- The total of reducer `r`'s artifact is the sum of the counts of the
pairs whose key it owns. -/
theorem totalCount_reducerCountsMC (pairs : List (Int × Nat)) (r R : Nat) :
    totalCount (reducerCountsMC pairs r R) = keptSum pairs r R := by
  have h := totalCount_reducerCountsMC_aux pairs r R []
  simpa [reducerCountsMC, totalCount] using h

theorem sum_map_range_indicator (c : Nat) :
    ∀ R j : Nat, j < R →
      ((List.range R).map (fun r => if j = r then c else 0)).sum = c := by
  intro R
  induction R with
  | zero => intro j hj; omega
  | succ n ih =>
      intro j hj
      rw [List.range_succ]
      by_cases h : j = n
      · subst h
        have hz : ((List.range j).map (fun r => if j = r then c else 0)).sum = 0 := by
          apply List.sum_eq_zero
          intro x hx
          simp only [List.mem_map] at hx
          obtain ⟨r, hr, hxe⟩ := hx
          have : j ≠ r := by
            have := List.mem_range.mp hr
            omega
          simp [this] at hxe
          omega
        simp [hz]
      · have hj' : j < n := by omega
        rw [List.map_append, List.sum_append, ih j hj']
        simp [h]

theorem sum_map_add_distrib {β : Type} (l : List β) (f g : β → Nat) :
    (l.map (fun b => f b + g b)).sum = (l.map f).sum + (l.map g).sum := by
  induction l with
  | nil => simp
  | cons b rest ih => simp [ih]; omega

theorem keptSum_cons (p : Int × Nat) (rest : List (Int × Nat)) (r R : Nat) :
    keptSum (p :: rest) r R
      = (if p.1 % (R : Int) = (r : Int) then p.2 else 0) + keptSum rest r R := by
  by_cases h : p.1 % (R : Int) = (r : Int) <;> simp [keptSum, h]

/-- Summed over all reducer indices `r < R`, the kept counts recover the
whole stream: each key is owned by exactly one reducer. -/
theorem sum_keptSum (R : Nat) (hR : 1 ≤ R) (pairs : List (Int × Nat)) :
    ((List.range R).map (fun r => keptSum pairs r R)).sum = totalCount pairs := by
  induction pairs with
  | nil => simp [keptSum, totalCount]
  | cons p rest ih =>
      have hcong : (List.range R).map (fun r => keptSum (p :: rest) r R)
          = (List.range R).map
              (fun (r : Nat) =>
                (if p.1 % (R : Int) = (r : Int) then p.2 else 0) + keptSum rest r R) := by
        apply List.map_congr_left
        intro r _
        exact keptSum_cons p rest r R
      rw [hcong, sum_map_add_distrib, ih]
      have hRz : (R : Int) ≠ 0 := by
        exact_mod_cast (by omega : R ≠ 0)
      have hnn : 0 ≤ p.1 % (R : Int) := Int.emod_nonneg p.1 hRz
      have hlt : p.1 % (R : Int) < (R : Int) := by
        apply Int.emod_lt_of_pos
        exact_mod_cast (by omega : 0 < R)
      set j := (p.1 % (R : Int)).toNat with hjdef
      have hjval : (j : Int) = p.1 % (R : Int) := Int.toNat_of_nonneg hnn
      have hjlt : j < R := by omega
      have hcond : (List.range R).map
            (fun (r : Nat) => if p.1 % (R : Int) = (r : Int) then p.2 else 0)
          = (List.range R).map (fun (r : Nat) => if j = r then p.2 else 0) := by
        apply List.map_congr_left
        intro r _
        have : (p.1 % (R : Int) = (r : Int)) ↔ (j = r) := by omega
        simp only [this]
      rw [hcond, sum_map_range_indicator p.2 R j hjlt]
      simp [totalCount]

/-! ### Key partitioner -/

theorem neg_lt_tmod (k : Int) (b : Int) (hb : 0 < b) : -b < k.tmod b := by
  obtain ⟨n, rfl⟩ : ∃ n : Nat, b = (n : Int) := ⟨b.toNat, (Int.toNat_of_nonneg hb.le).symm⟩
  have hn : 0 < n := by exact_mod_cast hb
  cases k with
  | ofNat m =>
      have h0 : 0 ≤ (Int.ofNat m).tmod ((n : Nat) : Int) :=
        Int.tmod_nonneg _ (Int.ofNat_nonneg m)
      omega
  | negSucc m =>
      have he : (Int.negSucc m).tmod ((n : Nat) : Int) = -((Nat.succ m % n : Nat) : Int) := rfl
      rw [he]
      have hlt : Nat.succ m % n < n := Nat.mod_lt _ hn
      omega

theorem tmod_plus_emod (k b : Int) (hb : 0 < b) :
    ((k.tmod b) + b).tmod b = k % b := by
  have h1 : -b < k.tmod b := neg_lt_tmod k b hb
  have h2 : 0 ≤ k.tmod b + b := by omega
  rw [Int.tmod_eq_emod h2 hb.le]
  have h4 : k.tmod b = k + b * (-(k.tdiv b)) := by
    have h5 := Int.tmod_add_tdiv k b
    linear_combination h5
  calc (k.tmod b + b) % b = (k.tmod b) % b := by
        have h6 := Int.add_mul_emod_self_left (k.tmod b) b 1
        rw [Int.mul_one] at h6
        exact h6
    _ = (k + b * (-(k.tdiv b))) % b := by rw [← h4]
    _ = k % b := Int.add_mul_emod_self_left k b (-(k.tdiv b))

/-- The spec's `((key mod R) + R) mod R` coincides with Python's `%`
(mathematical modulo) for every key and every positive reducer count. -/
theorem owner_eq_emod (k : Int) (R : Nat) (hR : 1 ≤ R) :
    owner k R = k % (R : Int) :=
  tmod_plus_emod k (R : Int) (by exact_mod_cast hR)

/-! ### Input partitioner -/

theorem assign_eq_block {α : Type} (files : List α) (i M : Nat) :
    assign files i M
      = (files.take (blockStop files.length i M)).drop (blockStart files.length i M) := by
  unfold assign blockStop blockStart
  rfl

theorem assign_of_ne_last {α : Type} (files : List α) (i M : Nat) (h : i ≠ M - 1) :
    assign files i M
      = (files.drop (i * (files.length / M))).take (files.length / M) := by
  unfold assign
  simp only [h, if_false]
  rw [List.drop_take]
  congr 1
  generalize files.length / M = c
  generalize i * c = a
  omega

theorem assign_last {α : Type} (files : List α) (M : Nat) :
    assign files (M - 1) M = files.drop ((M - 1) * (files.length / M)) := by
  unfold assign
  simp [List.take_length]

theorem flatMap_range_blocks {α : Type} (files : List α) (fpm : Nat) (n : Nat) :
    (List.range n).flatMap (fun i => (files.drop (i * fpm)).take fpm)
      = files.take (n * fpm) := by
  induction n with
  | zero => simp
  | succ m ih =>
      rw [List.range_succ, List.flatMap_append, ih]
      simp only [List.flatMap_cons, List.flatMap_nil, List.append_nil]
      rw [← List.take_add]
      congr 1
      ring

theorem assign_union {α : Type} (files : List α) (M : Nat) (hM : 1 ≤ M) :
    (List.range M).flatMap (fun i => assign files i M) = files := by
  obtain ⟨m, rfl⟩ : ∃ m, M = m + 1 := ⟨M - 1, by omega⟩
  rw [List.range_succ, List.flatMap_append]
  have hcong : (List.range m).flatMap (fun i => assign files i (m + 1))
      = (List.range m).flatMap
          (fun i => (files.drop (i * (files.length / (m + 1)))).take (files.length / (m + 1))) := by
    rw [List.flatMap, List.flatMap]
    congr 1
    apply List.map_congr_left
    intro i hi
    have : i ≠ (m + 1) - 1 := by
      have := List.mem_range.mp hi
      omega
    exact assign_of_ne_last files i (m + 1) this
  rw [hcong, flatMap_range_blocks]
  have hlast : assign files m (m + 1) = files.drop (m * (files.length / (m + 1))) := by
    have := assign_last files (m + 1)
    simpa using this
  simp only [List.flatMap_cons, List.flatMap_nil, List.append_nil, hlast]
  exact List.take_append_drop _ files

theorem block_no_overlap (len M i j n : Nat) (hij : i < j) (hj : j < M)
    (h1 : n < blockStop len i M) (h2 : blockStart len j M ≤ n) : False := by
  have hiM : i ≠ M - 1 := by omega
  have hstop : blockStop len i M = i * (len / M) + len / M := by
    simp [blockStop, blockStart, hiM]
  rw [hstop] at h1
  have hle : (i + 1) * (len / M) ≤ j * (len / M) :=
    Nat.mul_le_mul_right _ (by omega)
  have hcontra : n < n :=
    calc n < i * (len / M) + len / M := h1
      _ = (i + 1) * (len / M) := (Nat.succ_mul i _).symm
      _ ≤ j * (len / M) := hle
      _ ≤ n := h2
  exact absurd hcontra (lt_irrefl n)

/-! ## Claims -/

/-- C1 (count conservation): for every input corpus and task counts `M`, `R`
with `R ≥ 1`, the sum of all counts over all reducer artifacts equals the sum
of all counts over all mapper artifacts, which equals the total number of
valid integer tokens (lines whose stripped text parses as an integer) across
all assigned input files. -/
theorem C1_count_conservation (corpus : List (List String)) (M R : Nat) (hR : 1 ≤ R) :
    ((List.range R).map (fun r => totalCount (reducerArtifactMC corpus M r R))).sum
      = ((List.range M).map (fun m => totalCount (mapperArtifactMC corpus M m))).sum
    ∧ ((List.range M).map (fun m => totalCount (mapperArtifactMC corpus M m))).sum
      = ((List.range M).map (fun m => ((assign corpus m M).map validCountLines).sum)).sum := by
  constructor
  · have h1 : (List.range R).map (fun r => totalCount (reducerArtifactMC corpus M r R))
        = (List.range R).map (fun r => keptSum (allMapperPairsMC corpus M) r R) := by
      apply List.map_congr_left
      intro r _
      exact totalCount_reducerCountsMC _ r R
    rw [h1, sum_keptSum R hR, allMapperPairsMC, totalCount_flatMap]
  · apply congrArg List.sum
    apply List.map_congr_left
    intro m _
    exact totalCount_mapperCountsMC (assign corpus m M)

/-- Witness for C1 at a concrete two-file corpus containing one malformed
line, with `M = 2`, `R = 3`: both equalities hold and the common total is 4
(the `x` line is not counted). -/
theorem C1_count_conservation_witness :
    (((List.range 3).map
        (fun r => totalCount (reducerArtifactMC [["3", "1", "x"], ["-7", "2"]] 2 r 3))).sum
      = ((List.range 2).map
        (fun m => totalCount (mapperArtifactMC [["3", "1", "x"], ["-7", "2"]] 2 m))).sum
    ∧ ((List.range 2).map
        (fun m => totalCount (mapperArtifactMC [["3", "1", "x"], ["-7", "2"]] 2 m))).sum
      = ((List.range 2).map
        (fun m => ((assign [["3", "1", "x"], ["-7", "2"]] m 2).map validCountLines).sum)).sum)
    ∧ ((List.range 2).map
        (fun m => totalCount (mapperArtifactMC [["3", "1", "x"], ["-7", "2"]] 2 m))).sum = 4 :=
  ⟨C1_count_conservation [["3", "1", "x"], ["-7", "2"]] 2 3 (by decide), by decide⟩

/-- C2 (key ownership totality): for every reducer count `R ≥ 1` and every
integer key `k` (negative keys included), exactly one index `i < R` satisfies
`owner k R = i` where `owner` is the spec's `((k mod R) + R) mod R`, and this
function is exactly the ownership test `run_reducer` applies
(`number % NUM_REDUCERS == reducer_id`). -/
theorem C2_key_ownership_totality (R : Nat) (k : Int) (hR : 1 ≤ R) :
    (∃! i : Nat, i < R ∧ owner k R = (i : Int))
    ∧ ∀ (pairs : List (Int × Nat)) (r : Nat),
        reducerCountsMC pairs r R
          = pairs.foldl
              (fun t p => if owner p.1 R = (r : Int) then bumpBy t p.1 p.2 else t) [] := by
  have hRz : (R : Int) ≠ 0 := by exact_mod_cast (by omega : R ≠ 0)
  have hRpos : (0 : Int) < (R : Int) := by exact_mod_cast (by omega : 0 < R)
  constructor
  · have hnn : 0 ≤ k % (R : Int) := Int.emod_nonneg k hRz
    have hlt : k % (R : Int) < (R : Int) := Int.emod_lt_of_pos k hRpos
    refine ⟨(k % (R : Int)).toNat, ⟨by omega, ?_⟩, ?_⟩
    · rw [owner_eq_emod k R hR]
      omega
    · intro j hj
      obtain ⟨hjR, hje⟩ := hj
      rw [owner_eq_emod k R hR] at hje
      omega
  · intro pairs r
    have hfun : (fun (t : List (Int × Nat)) (p : Int × Nat) =>
          if p.1 % (R : Int) = (r : Int) then bumpBy t p.1 p.2 else t)
        = (fun t p => if owner p.1 R = (r : Int) then bumpBy t p.1 p.2 else t) := by
      funext t p
      rw [owner_eq_emod p.1 R hR]
    rw [reducerCountsMC, hfun]

/-- Witness for C2 at `R = 4`, `k = -5`: the owner is unique (it is 3), and
the reducer's filter agrees with `owner` on a concrete pair stream. -/
theorem C2_key_ownership_totality_witness :
    ((∃! i : Nat, i < 4 ∧ owner (-5) 4 = (i : Int))
      ∧ reducerCountsMC [((-5 : Int), 2)] 3 4
          = [((-5 : Int), 2)].foldl
              (fun t p => if owner p.1 4 = ((3 : Nat) : Int) then bumpBy t p.1 p.2 else t) [])
    ∧ owner (-5) 4 = 3 := by
  have h := C2_key_ownership_totality 4 (-5) (by decide)
  exact ⟨⟨h.1, h.2 [((-5 : Int), 2)] 3⟩, by decide⟩

/-- C3 (input partition totality and disjointness): for every file list and
mapper count `M ≥ 1`, task `i` owns the contiguous block from
`i * (len / M)` up to `(i+1) * (len / M)` — the last task absorbing the
remainder — the concatenation of all tasks' assignments is the whole list,
and distinct tasks' index ranges are disjoint. -/
theorem C3_partition_totality {α : Type} (files : List α) (M : Nat) (hM : 1 ≤ M) :
    ((List.range M).flatMap (fun i => assign files i M) = files)
    ∧ (∀ i, assign files i M
        = (files.take (blockStop files.length i M)).drop (blockStart files.length i M))
    ∧ ∀ i j n, i < M → j < M → i ≠ j →
        ¬ (blockStart files.length i M ≤ n ∧ n < blockStop files.length i M
            ∧ blockStart files.length j M ≤ n ∧ n < blockStop files.length j M) := by
  refine ⟨assign_union files M hM, fun i => assign_eq_block files i M, ?_⟩
  intro i j n hi hj hne hcontra
  obtain ⟨h1, h2, h3, h4⟩ := hcontra
  rcases Nat.lt_or_ge i j with hij | hij
  · exact block_no_overlap files.length M i j n hij hj h2 h3
  · have hji : j < i := by omega
    exact block_no_overlap files.length M j i n hji hi h4 h1

/-- Witness for C3 on a five-element list with `M = 2`: the two blocks are
`[a,b]` and `[c,d,e]` and concatenate back to the whole list. -/
theorem C3_partition_totality_witness :
    ((List.range 2).flatMap (fun i => assign ["a", "b", "c", "d", "e"] i 2)
        = ["a", "b", "c", "d", "e"])
    ∧ assign ["a", "b", "c", "d", "e"] 1 2 = ["c", "d", "e"] :=
  ⟨(C3_partition_totality ["a", "b", "c", "d", "e"] 2 (by decide)).1, by decide⟩

instance : IsTotal (Nat × Nat) pipeRankRel :=
  ⟨by intro a b; unfold pipeRankRel; omega⟩

instance : IsTrans (Nat × Nat) pipeRankRel :=
  ⟨by intro a b c; unfold pipeRankRel; omega⟩

/-- C4 counterexample: `mapreduce_count.py`'s `run_report` sorts by count
only (`key=lambda item: item[1], reverse=True`); with the merged table in
insertion order `[(5,10), (3,10), (7,8)]` the first two ranked pairs are
`[(5,10), (3,10)]`, not the claimed `[(3,10), (5,10)]`. -/
theorem C4_counterexample :
    (rankMC (mergeReportMC [[((5 : Int), 10)], [((3 : Int), 10), ((7 : Int), 8)]])).take 2
        = [((5 : Int), 10), ((3 : Int), 10)]
    ∧ (rankMC (mergeReportMC [[((5 : Int), 10)], [((3 : Int), 10), ((7 : Int), 8)]])).take 2
        ≠ [((3 : Int), 10), ((5 : Int), 10)] := by
  decide

set_option maxRecDepth 100000 in
/-- C4 amended: only the `map_reduce_pipeline.py` reporter sorts with the
claimed order — count descending, ties broken by key ascending
(Python key `(-count, key)`) — its output is sorted under that order, is a
permutation of its input pairs, and on the counts
`{(5,10), (3,10), (7,8)}` (all other keys 0) the first two rows are
`[(3,10), (5,10)]`. `mapreduce_count.py`'s reporter has no key tie-break. -/
theorem C4_pipeline_ranking (pairs : List (Nat × Nat)) :
    (pipeRank pairs).Sorted pipeRankRel
    ∧ (pipeRank pairs).Perm pairs
    ∧ pipeTop [(List.range 101).map
          (fun i => if i = 3 ∨ i = 5 then 10 else if i = 7 then 8 else 0)] 2
        = [(3, 10), (5, 10)] := by
  refine ⟨List.sorted_insertionSort pipeRankRel pairs,
    List.perm_insertionSort pipeRankRel pairs, ?_⟩
  decide

theorem lookup_setKey (t : List (Int × Nat)) (k' : Int) (c : Nat) (k : Int) :
    lookupTable (setKey t k' c) k = if k' = k then some c else lookupTable t k := by
  induction t with
  | nil => by_cases h : k' = k <;> simp [setKey, lookupTable, h]
  | cons p rest ih =>
      simp only [setKey]
      by_cases h1 : p.1 = k'
      · rw [if_pos h1]
        by_cases h2 : k' = k
        · simp [lookupTable, h1, h2]
        · have h3 : ¬ p.1 = k := by rw [h1]; exact h2
          simp [lookupTable, h1, h2, h3]
      · rw [if_neg h1]
        by_cases h2 : p.1 = k
        · have h3 : ¬ k' = k := by
            intro he
            exact h1 (by rw [h2, he])
          simp [lookupTable, h2, h3]
        · simp [lookupTable, h2, ih]

theorem lookup_foldl_setKey (pairs : List (Int × Nat)) :
    ∀ (t : List (Int × Nat)) (k : Int),
      lookupTable (pairs.foldl (fun t2 p => setKey t2 p.1 p.2) t) k
        = match pairs.reverse.find? (fun p => decide (p.1 = k)) with
          | some q => some q.2
          | none => lookupTable t k := by
  induction pairs with
  | nil => intro t k; simp
  | cons p rest ih =>
      intro t k
      rw [List.foldl_cons, ih]
      rw [List.reverse_cons, List.find?_append]
      cases h : rest.reverse.find? (fun p => decide (p.1 = k)) with
      | some q => simp [Option.or]
      | none =>
          by_cases h2 : p.1 = k
          · simp [Option.or, List.find?, h2, lookup_setKey]
          · simp [Option.or, List.find?, h2, lookup_setKey]

/-- C5 counterexample: with key 5 present in two reducer artifacts,
`run_report`'s merge silently keeps the later artifact's count (3), rather
than detecting a consistency error (the merge has no error path at all),
and rather than summing. -/
theorem C5_counterexample :
    mergeReportMC [[((5 : Int), 2)], [((5 : Int), 3)]] = [((5 : Int), 3)]
    ∧ lookupTable (mergeReportMC [[((5 : Int), 2)], [((5 : Int), 3)]]) 5 = some 3
    ∧ lookupTable (mergeReportMC [[((5 : Int), 2)], [((5 : Int), 3)]]) 5 ≠ some 5 := by
  decide

/-- C5 amended: `run_report`'s merge is a plain dict write
(`total_counts[number] = count`), so a key owned by several reducer
artifacts is silently resolved last-writer-wins: the merged count of any
key is the count of its last occurrence in artifact reading order, and no
error is ever reported. -/
theorem C5_merge_overwrites (arts : List (List (Int × Nat))) (k : Int) :
    lookupTable (mergeReportMC arts) k
      = match arts.flatten.reverse.find? (fun p => decide (p.1 = k)) with
        | some q => some q.2
        | none => none := by
  unfold mergeReportMC
  rw [← List.foldl_flatten, lookup_foldl_setKey]
  cases h : arts.flatten.reverse.find? (fun p => decide (p.1 = k)) with
  | some q => rfl
  | none => simp [lookupTable]

/-- C6 counterexample: in `map_reduce_pipeline.py` the mapper has no
try/except around `v = int(t)`, so the malformed token `x` aborts the
mapper task instead of being silently skipped. -/
theorem C6_counterexample :
    pipeMapper [["3", "x", "2"]] 0 1 = .error "x" := by
  rfl

/-- C6 amended: in `mapreduce_count.py` (and `mapreduce_counter.py`) a line
that fails to parse as an integer is silently skipped — removing it from the
stream leaves the mapper's table unchanged, so malformed lines never abort
the task — while in `map_reduce_pipeline.py` an unparsable token makes the
mapper raise. -/
theorem C6_parse_policy (l : String) (h : parseIntTok (pyStrip l) = none) :
    (∀ (pre post : List String) (t : List (Int × Nat)),
        (pre ++ l :: post).foldl mapLineStep t = (pre ++ post).foldl mapLineStep t)
    ∧ ∀ (counts : List Nat) (tok : String), parseIntTok tok = none →
        pipeStep counts tok = .error tok := by
  constructor
  · intro pre post t
    rw [List.foldl_append, List.foldl_append, List.foldl_cons]
    have hskip : mapLineStep (pre.foldl mapLineStep t) l = pre.foldl mapLineStep t := by
      unfold mapLineStep
      rw [h]
    rw [hskip]
  · intro counts tok htok
    unfold pipeStep
    rw [htok]

/-- Witness for C6 amended: dropping the malformed line `x` does not change
the `mapreduce_count` mapper's table, and the pipeline mapper errors on the
unparsable token `y`. -/
theorem C6_parse_policy_witness :
    ((["1"] ++ "x" :: ["2"]).foldl mapLineStep [] = (["1"] ++ ["2"]).foldl mapLineStep [])
    ∧ pipeStep [] "y" = .error "y" := by
  have h := C6_parse_policy "x" (by decide)
  exact ⟨h.1 ["1"] ["2"] [], h.2 [] "y" (by decide)⟩

/-- C7 counterexample: `count_integers.py`'s reducer with zero mapper
artifacts exits with code 1 — the same code as a usage error — not with the
claimed code 2. -/
theorem C7_counterexample :
    reducerTaskCI [] = .error 1 ∧ mainCI ["reducer"] [] = .error 1 ∧ (1 : Nat) ≠ 2 := by
  refine ⟨rfl, rfl, by decide⟩

/-- C7 amended: with zero upstream artifacts `count_integers.py`'s reducer
fails with exit code 1 (reusing the usage-error code), while
`mapreduce_count.py`'s reporter merely prints an error and returns normally
(exit 0, no report); usage errors exit with code 1; exit code 2 is never
produced. -/
theorem C7_exit_codes (arts : List (List (Int × Nat))) :
    (arts = [] → reducerTaskCI arts = .error 1)
    ∧ (arts = [] → runReportMC arts = none)
    ∧ (∀ args : List String, args ≠ ["mapper"] → args ≠ ["reducer"] →
        mainCI args arts = .error 1)
    ∧ (arts ≠ [] → reducerTaskCI arts = .ok (top6CI (mergeSumCI arts))) := by
  refine ⟨?_, ?_, ?_, ?_⟩
  · intro h; subst h; rfl
  · intro h; subst h; rfl
  · intro args h1 h2
    unfold mainCI
    rw [if_neg h1, if_neg h2]
  · intro h
    unfold reducerTaskCI
    simp [List.isEmpty_iff, h]

/-- Witness for C7 amended at concrete inputs: empty artifact list and the
unknown subcommand `report`. -/
theorem C7_exit_codes_witness :
    reducerTaskCI [] = .error 1
    ∧ runReportMC ([] : List (List (Int × Nat))) = none
    ∧ mainCI ["report"] [] = .error 1 := by
  have h := C7_exit_codes []
  exact ⟨h.1 rfl, h.2.1 rfl, h.2.2.1 ["report"] (by decide) (by decide)⟩

/-- C8 (idempotent, deterministic re-runs): re-running a mapper or reducer
task with the same `(taskIndex, taskCount)` against unchanged input leaves
the store exactly as after the first run (artifacts are wholesale
overwritten), and the artifact content each run writes is a pure function of
the task's inputs, independent of the prior store contents at its own name. -/
theorem C8_rerun_idempotent (corpus : List (List String)) (M i R r : Nat) (fs : FS) :
    runMapperFS corpus M i (runMapperFS corpus M i fs) = runMapperFS corpus M i fs
    ∧ runReducerFS M R r (runReducerFS M R r fs) = runReducerFS M R r fs
    ∧ (runMapperFS corpus M i fs).mapArts i = some (mapperArtifactMC corpus M i)
    ∧ (runReducerFS M R r fs).redArts r
        = some (reducerCountsMC (readMapPairs fs M) r R) := by
  refine ⟨?_, ?_, ?_, ?_⟩
  · apply FS.ext
    · funext j
      by_cases hj : j = i <;> simp [runMapperFS, writeMapArt, hj]
    · rfl
  · apply FS.ext
    · rfl
    · funext j
      by_cases hj : j = r
      · simp only [runReducerFS, writeRedArt, hj, if_pos rfl]
        rfl
      · simp [runReducerFS, writeRedArt, hj]
  · simp [runMapperFS, writeMapArt]
  · simp [runReducerFS, writeRedArt]

theorem pipeStep_length (counts : List Nat) (t : String) (c' : List Nat)
    (h : pipeStep counts t = .ok c') : c'.length = counts.length := by
  unfold pipeStep at h
  cases hp : parseIntTok t with
  | none =>
      rw [hp] at h
      exact Except.noConfusion h
  | some v =>
      rw [hp] at h
      injection h with h2
      rw [← h2]
      by_cases hv : 0 ≤ v ∧ v ≤ 100 <;> simp [hv, List.length_set]

theorem foldlM_pipeStep_length (toks : List String) :
    ∀ counts t : List Nat,
      toks.foldlM pipeStep counts = .ok t → t.length = counts.length := by
  induction toks with
  | nil =>
      intro counts t h
      rw [List.foldlM_nil] at h
      injection h with h2
      rw [← h2]
  | cons tok rest ih =>
      intro counts t h
      rw [List.foldlM_cons] at h
      cases hs : pipeStep counts tok with
      | error e =>
          rw [hs] at h
          exact Except.noConfusion (show Except.error e = Except.ok t from h)
      | ok c' =>
          rw [hs] at h
          have h' : rest.foldlM pipeStep c' = .ok t := h
          rw [ih c' t h', pipeStep_length counts tok c' hs]

theorem pipeMapper_length (corpus : List (List String)) (i M : Nat) (t : List Nat)
    (h : pipeMapper corpus i M = .ok t) : t.length = 101 := by
  suffices haux : ∀ (files : List (List String)) (counts t : List Nat),
      files.foldlM (fun c f => f.foldlM pipeStep c) counts = .ok t →
        t.length = counts.length by
    have := haux (assignRoundRobin corpus i M) (List.replicate 101 0) t h
    simpa using this
  intro files
  induction files with
  | nil =>
      intro counts t h
      rw [List.foldlM_nil] at h
      injection h with h2
      rw [← h2]
  | cons f rest ih =>
      intro counts t h
      rw [List.foldlM_cons] at h
      cases hs : f.foldlM pipeStep counts with
      | error e =>
          rw [hs] at h
          exact Except.noConfusion (show Except.error e = Except.ok t from h)
      | ok c' =>
          rw [hs] at h
          have h' : rest.foldlM (fun c f => f.foldlM pipeStep c) c' = .ok t := h
          rw [ih c' t h', foldlM_pipeStep_length f counts c' hs]

theorem foldl_set_length (keep : Nat → Bool) (l : List (Nat × Nat)) :
    ∀ tbl : List Nat,
      (l.foldl (fun p ic => if keep ic.1 then p.set ic.1 (p.getD ic.1 0 + ic.2) else p)
          tbl).length
        = tbl.length := by
  induction l with
  | nil => intro tbl; rfl
  | cons e rest ih =>
      intro tbl
      rw [List.foldl_cons, ih]
      by_cases h : keep e.1 <;> simp [h, List.length_set]

theorem addArr_length (tbl arr : List Nat) (keep : Nat → Bool) :
    (addArr tbl arr keep).length = tbl.length :=
  foldl_set_length keep arr.enum tbl

theorem foldl_addArr_length (parts : List (List Nat)) (keep : Nat → Bool) :
    ∀ tbl : List Nat,
      (parts.foldl (fun t a => addArr t a keep) tbl).length = tbl.length := by
  induction parts with
  | nil => intro tbl; rfl
  | cons a rest ih =>
      intro tbl
      rw [List.foldl_cons, ih, addArr_length]

theorem pipeTop_keys (parts : List (List Nat)) (K : Nat) (p : Nat × Nat)
    (hp : p ∈ pipeTop parts K) : p.1 ≤ 100 := by
  unfold pipeTop at hp
  have h1 : p ∈ pipeRank (pipePairs (pipeReportTable parts)) := List.mem_of_mem_take hp
  have h2 : p ∈ pipePairs (pipeReportTable parts) :=
    (List.perm_insertionSort pipeRankRel _).mem_iff.mp h1
  unfold pipePairs at h2
  simp only [List.mem_map, List.mem_range] at h2
  obtain ⟨i2, hi2, hpe⟩ := h2
  rw [← hpe]
  simpa using by omega

/-- C9 (pipeline dense tables): in `map_reduce_pipeline.py` every mapper,
reducer, and report-side table is a dense array of exactly 101 counters
indexed 0..100, every parsed token whose value falls outside `[0, 100]`
leaves the mapper's table untouched, and every key in the final report is at
most 100. -/
theorem C9_pipeline_dense_tables :
    (∀ (corpus : List (List String)) (i M : Nat) (t : List Nat),
        pipeMapper corpus i M = .ok t → t.length = 101)
    ∧ (∀ (counts : List Nat) (tok : String) (v : Int),
        parseIntTok tok = some v → (v < 0 ∨ 100 < v) → pipeStep counts tok = .ok counts)
    ∧ (∀ (parts : List (List Nat)) (r R : Nat), (pipeReducer parts r R).length = 101)
    ∧ (∀ parts : List (List Nat), (pipeReportTable parts).length = 101)
    ∧ (∀ (parts : List (List Nat)) (K : Nat) (p : Nat × Nat),
        p ∈ pipeTop parts K → p.1 ≤ 100) := by
  refine ⟨pipeMapper_length, ?_, ?_, ?_, pipeTop_keys⟩
  · intro counts tok v hp hv
    unfold pipeStep
    rw [hp]
    show Except.ok
        (if 0 ≤ v ∧ v ≤ 100 then counts.set v.toNat (counts.getD v.toNat 0 + 1) else counts)
      = Except.ok counts
    have hc : ¬ (0 ≤ v ∧ v ≤ 100) := by omega
    rw [if_neg hc]
  · intro parts r R
    unfold pipeReducer
    rw [foldl_addArr_length, List.length_replicate]
  · intro parts
    unfold pipeReportTable
    rw [foldl_addArr_length, List.length_replicate]

set_option maxRecDepth 100000 in
/-- Witness for C9: a one-token corpus gives a 101-slot mapper table; the
out-of-range token `200` is dropped; empty reducer and report tables have
101 slots; a concrete report key is within range. -/
theorem C9_pipeline_dense_tables_witness :
    ((List.replicate 101 0).set 5 1).length = 101
    ∧ pipeStep [] "200" = .ok []
    ∧ (pipeReducer [] 0 2).length = 101
    ∧ (pipeReportTable []).length = 101
    ∧ ((2, 9) : Nat × Nat).1 ≤ 100 := by
  have h := C9_pipeline_dense_tables
  exact ⟨h.1 [["5"]] 0 1 ((List.replicate 101 0).set 5 1) (by rfl),
    h.2.1 [] "200" 200 (by decide) (by decide),
    h.2.2.1 [] 0 2,
    h.2.2.2.1 [],
    h.2.2.2.2 [[0, 5, 9]] 2 (2, 9) (by decide)⟩

theorem mapperValuesCI_nonneg (tokens : List String) (k : Int)
    (hk : k ∈ mapperValuesCI tokens) : 0 ≤ k := by
  unfold mapperValuesCI at hk
  simp only [List.mem_map] at hk
  obtain ⟨t, ht, he⟩ := hk
  omega

theorem keys_bumpBy_subset (t : List (Int × Nat)) (k : Int) (c : Nat) (x : Int)
    (hx : x ∈ (bumpBy t k c).map Prod.fst) : x = k ∨ x ∈ t.map Prod.fst := by
  induction t with
  | nil =>
      simp [bumpBy] at hx
      left
      exact hx
  | cons p rest ih =>
      by_cases h : p.1 = k
      · rw [show bumpBy (p :: rest) k c = (p.1, p.2 + c) :: rest by simp [bumpBy, h]] at hx
        rw [List.map_cons, List.mem_cons] at hx
        rcases hx with he | hm
        · left
          rw [he]
          exact h
        · right
          rw [List.map_cons, List.mem_cons]
          right
          exact hm
      · rw [show bumpBy (p :: rest) k c = p :: bumpBy rest k c by simp [bumpBy, h]] at hx
        rw [List.map_cons, List.mem_cons] at hx
        rcases hx with he | hm
        · right
          rw [List.map_cons, List.mem_cons]
          left
          exact he
        · rcases ih hm with h1 | h2
          · left
            exact h1
          · right
            rw [List.map_cons, List.mem_cons]
            right
            exact h2

theorem keys_foldl_bumpBy (pairs : List (Int × Nat)) :
    ∀ (t : List (Int × Nat)) (q : Int × Nat),
      q ∈ pairs.foldl (fun t2 p => bumpBy t2 p.1 p.2) t →
        q.1 ∈ t.map Prod.fst ∨ q.1 ∈ pairs.map Prod.fst := by
  induction pairs with
  | nil =>
      intro t q hq
      left
      exact List.mem_map_of_mem Prod.fst hq
  | cons p rest ih =>
      intro t q hq
      rw [List.foldl_cons] at hq
      rcases ih (bumpBy t p.1 p.2) q hq with h1 | h2
      · rcases keys_bumpBy_subset t p.1 p.2 q.1 h1 with he | hm
        · right
          simp [he]
        · left
          exact hm
      · right
        simp only [List.map_cons, List.mem_cons]
        right
        exact h2

theorem keys_mergeSumCI (arts : List (List (Int × Nat))) (q : Int × Nat)
    (hq : q ∈ mergeSumCI arts) : q.1 ∈ arts.flatten.map Prod.fst := by
  unfold mergeSumCI at hq
  rw [← List.foldl_flatten] at hq
  rcases keys_foldl_bumpBy arts.flatten [] q hq with h1 | h2
  · simp at h1
  · exact h2

/-- C10 (`count_integers.py` counts only `isdigit` tokens): every value the
mapper counts is a non-negative integer, hence every key with positive total
count — and every key of the top-6 report built from mapper-produced
artifacts — is non-negative; tokens such as `-5` or `+3` parse as signed
integers but fail `isdigit()` and are never counted. -/
theorem C10_isdigit_nonneg :
    (∀ (tokens : List String) (k : Int), k ∈ mapperValuesCI tokens → 0 ≤ k)
    ∧ (∀ (files : List (List String)) (k : Int), 0 < totalCountsCI files k → 0 ≤ k)
    ∧ (∀ (arts : List (List (Int × Nat))) (q : Int × Nat),
        (∀ p ∈ arts.flatten, 0 ≤ p.1) → q ∈ top6CI (mergeSumCI arts) → 0 ≤ q.1)
    ∧ (pyIsdigit "-5" = false ∧ pyIsdigit "+3" = false
        ∧ parseIntTok "-5" = some (-5) ∧ parseIntTok "+3" = some 3
        ∧ mapperValuesCI ["-5", "+3", "7"] = [(7 : Int)]) := by
  refine ⟨mapperValuesCI_nonneg, ?_, ?_, by decide⟩
  · intro files k h
    unfold totalCountsCI at h
    have hex : ∃ f ∈ files, mapperCounterCI f k ≠ 0 := by
      by_contra hall
      push_neg at hall
      have hz : (files.map (fun f => mapperCounterCI f k)).sum = 0 := by
        apply List.sum_eq_zero
        intro x hx
        simp only [List.mem_map] at hx
        obtain ⟨f, hf, he⟩ := hx
        rw [← he]
        exact hall f hf
      omega
    obtain ⟨f, hf, hne⟩ := hex
    unfold mapperCounterCI at hne
    have hmem : k ∈ mapperValuesCI f := List.count_pos_iff.mp (Nat.pos_of_ne_zero hne)
    exact mapperValuesCI_nonneg f k hmem
  · intro arts q hfl hq
    unfold top6CI at hq
    have h1 : q ∈ rankMC (mergeSumCI arts) := List.mem_of_mem_take hq
    unfold rankMC at h1
    have h2 : q ∈ mergeSumCI arts := (List.perm_insertionSort _ _).mem_iff.mp h1
    have h3 := keys_mergeSumCI arts q h2
    simp only [List.mem_map] at h3
    obtain ⟨p, hp, he⟩ := h3
    rw [← he]
    exact hfl p hp

/-- Witness for C10 at concrete inputs: the token `7` is counted and its
key is non-negative at every stage. -/
theorem C10_isdigit_nonneg_witness :
    (0 : Int) ≤ 7
    ∧ (0 : Int) ≤ 7
    ∧ (0 : Int) ≤ ((3 : Int), 2).1 := by
  have h := C10_isdigit_nonneg
  exact ⟨h.1 ["7"] 7 (by decide),
    h.2.1 [["7"]] 7 (by decide),
    h.2.2.1 [[((3 : Int), 2)]] ((3 : Int), 2) (by decide) (by decide)⟩

end BigData
